import Mathlib

/-!
Verification of the subject-extraction and canvas-compositing pipeline
implemented in src/index.mjs.

The pixel-level analyzer, the placement geometry and the configuration
policy are embedded as executable Lean definitions.  External image
primitives (Gaussian blur, resampling resize, over-blending, the webp
codec) are opaque collaborators of the repository and are represented as
function parameters; everything that the repository itself computes is
translated directly from the source.  JavaScript number arithmetic on the
geometry path is modelled with exact rationals, and machine integers with
Nat and Int.  The alpha smoother works through a single mutable sharp
instance (operation methods mutate the shared options and return the same
instance); its embedding threads that one state explicitly and surfaces
the raw-input length validation as an Except error.
-/

namespace ImageResize

/-- Configuration knobs read from the environment at startup
(lines 9 to 20 of src/index.mjs). -/
structure Config where
  size : ℕ
  pad : ℚ
  vbias : ℚ
  athresh : ℕ
  smoothThresh : ℕ
  smoothBlur : ℚ
  deriving Repr, DecidableEq

/-- Default configuration: SIZE 2000, PAD 0.05, VBIAS 0, ATHRESH 16,
SMOOTH_THRESH 180, SMOOTH_BLUR 1.2. -/
def defaultConfig : Config :=
  { size := 2000, pad := 1/20, vbias := 0, athresh := 16,
    smoothThresh := 180, smoothBlur := 6/5 }

/-- JavaScript Math.round: round half toward positive infinity. -/
def jsRound (q : ℚ) : ℤ := ⌊q + 1/2⌋

/-! ## Pixel model -/

/-- One 8-bit-per-channel RGBA pixel. -/
structure RGBA where
  r : ℕ
  g : ℕ
  b : ℕ
  a : ℕ
  deriving Repr, DecidableEq

/-- An image buffer: a width times height grid of pixels.  The hasAlpha
flag records whether the buffer carries a meaningful alpha channel. -/
structure Img where
  width : ℕ
  height : ℕ
  hasAlpha : Bool
  px : ℕ → ℕ → RGBA

/-! ## Alpha analyzer (findAlphaBBoxAndCentroid, lines 42 to 77) -/

/-- Mutable state of the scan loop: running minima x0 y0, running maxima
x1 y1 (initialised to w, h, -1, -1 as in the source) and the running sums
of alpha, alpha times x and alpha times y. -/
structure ScanState where
  x0 : ℤ
  y0 : ℤ
  x1 : ℤ
  y1 : ℤ
  sumA : ℕ
  sumX : ℕ
  sumY : ℕ
  deriving Repr, DecidableEq

/-- Initial scan state: x0 = w, y0 = h, x1 = -1, y1 = -1, sums zero. -/
def scanInit (w h : ℕ) : ScanState :=
  { x0 := w, y0 := h, x1 := -1, y1 := -1, sumA := 0, sumX := 0, sumY := 0 }

/-- Body of the per-pixel loop: if the alpha at the pixel strictly exceeds
the threshold, update the minima, maxima and weighted sums. -/
def scanStep (a : ℕ → ℕ) (w t : ℕ) (s : ScanState) (p : ℕ × ℕ) : ScanState :=
  if t < a (p.2 * w + p.1) then
    { x0 := min s.x0 (p.1 : ℤ), y0 := min s.y0 (p.2 : ℤ),
      x1 := max s.x1 (p.1 : ℤ), y1 := max s.y1 (p.2 : ℤ),
      sumA := s.sumA + a (p.2 * w + p.1),
      sumX := s.sumX + a (p.2 * w + p.1) * p.1,
      sumY := s.sumY + a (p.2 * w + p.1) * p.2 }
  else s

/-- The pixels visited by the nested loops, row major: y from 0 to h-1,
and inside each row x from 0 to w-1. -/
def pixList (w h : ℕ) : List (ℕ × ℕ) :=
  (List.range h).flatMap (fun y => (List.range w).map (fun x => (x, y)))

/-- Run the full scan loop over the alpha buffer. -/
def runScan (a : ℕ → ℕ) (w h t : ℕ) : ScanState :=
  List.foldl (scanStep a w t) (scanInit w h) (pixList w h)

/-- Result record of the analyzer: bbox = [x0, y0, x1 + 1, y1 + 1]
(half open on the high end), the centroid in full-image coordinates, and
the image dimensions. -/
structure AnalyzerResult where
  bbox0 : ℤ
  bbox1 : ℤ
  bbox2 : ℤ
  bbox3 : ℤ
  cx : ℚ
  cy : ℚ
  w : ℕ
  h : ℕ
  deriving Repr, DecidableEq

/-- The analyzer: scan every pixel, return none when no pixel exceeded the
threshold (detected by x1 < x0 or y1 < y0), otherwise the bounding box and
the alpha-weighted centroid cx = sumX / sumA, cy = sumY / sumA. -/
def findAlphaBBoxAndCentroid (a : ℕ → ℕ) (w h t : ℕ) : Option AnalyzerResult :=
  let s := runScan a w h t
  if s.x1 < s.x0 ∨ s.y1 < s.y0 then none
  else some
    { bbox0 := s.x0, bbox1 := s.y0, bbox2 := s.x1 + 1, bbox3 := s.y1 + 1,
      cx := (s.sumX : ℚ) / (s.sumA : ℚ), cy := (s.sumY : ℚ) / (s.sumA : ℚ),
      w := w, h := h }

/-! ## Canvas compositor geometry (toSquareWebP, lines 125 to 163) -/

/-- Content box inside the square canvas: SIZE * (1 - padPct * 2). -/
def maxContentOf (cfg : Config) : ℚ := (cfg.size : ℚ) * (1 - cfg.pad * 2)

/-- Uniform scale factor: min(maxContent / width, maxContent / height). -/
def scaleOf (cfg : Config) (w h : ℕ) : ℚ :=
  min (maxContentOf cfg / (w : ℚ)) (maxContentOf cfg / (h : ℚ))

/-- Resized width: max(1, floor(width * scale)). -/
def resizedW (cfg : Config) (w h : ℕ) : ℤ :=
  max 1 ⌊(w : ℚ) * scaleOf cfg w h⌋

/-- Resized height: max(1, floor(height * scale)). -/
def resizedH (cfg : Config) (w h : ℕ) : ℤ :=
  max 1 ⌊(h : ℚ) * scaleOf cfg w h⌋

/-- Vertical bias in pixels: round(V_BIAS_PCT * SIZE). -/
def biasOf (cfg : Config) : ℤ := jsRound (cfg.vbias * (cfg.size : ℚ))

/-- Horizontal offset of the pasted image.  With a centroid (given in
crop-local coordinates): round(SIZE / 2 - cx * scale), unclamped.  Without
one: max(0, floor((SIZE - resizedW) / 2)). -/
def placeLeft (cfg : Config) (w h : ℕ) (c : Option (ℚ × ℚ)) : ℤ :=
  match c with
  | some cc => jsRound ((cfg.size : ℚ) / 2 - cc.1 * scaleOf cfg w h)
  | none => max 0 ⌊((cfg.size : ℚ) - (resizedW cfg w h : ℚ)) / 2⌋

/-- Vertical offset of the pasted image.  With a centroid:
round(SIZE / 2 - cy * scale + bias), unclamped.  Without one:
max(0, floor((SIZE - resizedH) / 2 + bias)). -/
def placeTop (cfg : Config) (w h : ℕ) (c : Option (ℚ × ℚ)) : ℤ :=
  match c with
  | some cc =>
      jsRound ((cfg.size : ℚ) / 2 - cc.2 * scaleOf cfg w h + (biasOf cfg : ℚ))
  | none =>
      max 0 ⌊((cfg.size : ℚ) - (resizedH cfg w h : ℚ)) / 2 + (biasOf cfg : ℚ)⌋

/-- The fresh canvas: SIZE times SIZE, four channels, fully transparent
background (0, 0, 0, 0). -/
def transparentCanvas (n : ℕ) : Img :=
  { width := n, height := n, hasAlpha := true, px := fun _ _ => ⟨0, 0, 0, 0⟩ }

/-- Composite src over dst at integer offset (l, t): pixels of dst under
the pasted rectangle are blended with the corresponding src pixel, all
other pixels of dst are untouched.  The blend operator itself is the
opaque over-blending primitive of the image library. -/
def composite (blend : RGBA → RGBA → RGBA) (dst src : Img) (l t : ℤ) : Img :=
  { width := dst.width, height := dst.height, hasAlpha := dst.hasAlpha,
    px := fun x y =>
      if l ≤ (x : ℤ) ∧ (x : ℤ) < l + (src.width : ℤ) ∧
         t ≤ (y : ℤ) ∧ (y : ℤ) < t + (src.height : ℤ) then
        blend (src.px ((x : ℤ) - l).toNat ((y : ℤ) - t).toNat) (dst.px x y)
      else dst.px x y }

/-- The compositing stage of toSquareWebP: compute the resized dimensions
and the placement offsets, resize the crop with the opaque resize
primitive, and composite it onto a fresh transparent canvas. -/
def toSquareCanvas (blend : RGBA → RGBA → RGBA) (resizeFn : Img → ℕ → ℕ → Img)
    (cfg : Config) (crop : Img) (c : Option (ℚ × ℚ)) : Img :=
  let nw := (resizedW cfg crop.width crop.height).toNat
  let nh := (resizedH cfg crop.width crop.height).toNat
  let l := placeLeft cfg crop.width crop.height c
  let t := placeTop cfg crop.width crop.height c
  composite blend (transparentCanvas cfg.size) (resizeFn crop nw nh) l t

/-! ## Alpha smoother (smoothAlpha, lines 79 to 100)

The source builds rgb and alpha from one sharp instance: sharp operation
methods set an option on the instance and return that same instance, so
img, rgb and alpha are aliases of a single mutable pipeline.  The
embedding threads that one state through the calls in program order, and
models a raw render by the length of the buffer it produces, since the
buffer length is exactly what the raw-input validation of the library
inspects on the rebuild that fails. -/

/-- A byte buffer produced by a render, tracked by its length. -/
structure RawBuf where
  len : ℕ
  deriving Repr, DecidableEq

/-- Library errors surfaced by the embedding: a raw input whose buffer
length does not match width times height times channels is rejected. -/
inductive SharpErr where
  | rawLengthMismatch (got expected : ℕ)
  deriving Repr, DecidableEq

/-- One mutable sharp instance: the input dimensions and channel count
plus the accumulated pipeline options. -/
structure SharpState where
  width : ℕ
  height : ℕ
  channels : ℕ
  removeAlphaOpt : Bool
  extractChannelOpt : Option ℕ
  blurOpt : Option ℚ
  thresholdOpt : Option ℕ
  deriving Repr, DecidableEq

/-- sharp(buf): a fresh instance over a w by h buffer with c channels and
no options set. -/
def mkSharp (w h c : ℕ) : SharpState :=
  { width := w, height := h, channels := c, removeAlphaOpt := false,
    extractChannelOpt := none, blurOpt := none, thresholdOpt := none }

/-- removeAlpha(): sets the remove-alpha option on the shared instance. -/
def removeAlphaM (s : SharpState) : SharpState :=
  { s with removeAlphaOpt := true }

/-- extractChannel(c): sets the extract-channel option; "alpha" is
channel 3 of an RGBA buffer. -/
def extractChannelM (s : SharpState) (c : ℕ) : SharpState :=
  { s with extractChannelOpt := some c }

/-- blur(r): sets the blur option on the shared instance. -/
def blurM (s : SharpState) (r : ℚ) : SharpState :=
  { s with blurOpt := some r }

/-- threshold(t): sets the threshold option on the shared instance. -/
def thresholdM (s : SharpState) (t : ℕ) : SharpState :=
  { s with thresholdOpt := some t }

/-- Channel count of a render of the accumulated pipeline: channel
extraction yields a single-channel image (in the library pipeline the
extraction applies before the alpha removal, and removing alpha from a
single-channel image is a no-op); without extraction, alpha removal drops
one channel. -/
def pipeChannels (s : SharpState) : ℕ :=
  if s.extractChannelOpt.isSome then 1
  else if s.removeAlphaOpt then s.channels - 1
  else s.channels

/-- raw().toBuffer(): the rendered raw buffer, of length width times
height times the pipeline channel count. -/
def rawToBuffer (s : SharpState) : RawBuf :=
  ⟨s.width * s.height * pipeChannels s⟩

/-- Faithful model of smoothAlpha on a w by h RGBA input.  rgb =
img.removeAlpha() and alpha = img.extractChannel.blur.threshold all
mutate the one instance img, so the state threads through every call and
both raw readbacks render the same fully mutated single-channel pipeline.
Rebuilding the alpha readback as a 1-channel raw input passes its length
validation, but rebuilding the rgb readback as a 3-channel raw input
fails it on every nonempty image.  The success value, reachable only for
empty images, stands for the joined four-channel png of the final line. -/
def smoothAlpha (cfg : Config) (w h : ℕ) : Except SharpErr RawBuf :=
  let s0 := mkSharp w h 4
  let s1 := removeAlphaM s0
  let s2 := thresholdM (blurM (extractChannelM s1 3) cfg.smoothBlur)
    cfg.smoothThresh
  let alphaBuf := rawToBuffer s2
  if alphaBuf.len = w * h * 1 then
    let rgbBuf := rawToBuffer s2
    if rgbBuf.len = w * h * 3 then Except.ok ⟨w * h * 4⟩
    else Except.error (SharpErr.rawLengthMismatch rgbBuf.len (w * h * 3))
  else Except.error (SharpErr.rawLengthMismatch alphaBuf.len (w * h * 1))

/-! ## Background removal front end (removeBgToRGBA, lines 102 to 123) -/

/-- Normalize to RGBA: when the buffer has no alpha channel, synthesize a
fully opaque one. -/
def ensureAlpha (img : Img) : Img :=
  if img.hasAlpha then img
  else
    { width := img.width, height := img.height, hasAlpha := true,
      px := fun x y =>
        ⟨(img.px x y).r, (img.px x y).g, (img.px x y).b, 255⟩ }

/-- The two-tier background removal wrapper.  In HQ mode the high tier is
attempted first; when it throws, the catch block uses the fast default
tier instead.  The chosen blob is normalized to RGBA, and in HQ mode the
alpha smoother is then applied with no guard around it.  The two tiers
and the png encoder are opaque collaborators: the high tier may fail
(Except), the fast tier is its result image. -/
def removeBgToRGBA (pngEncode : Img → RawBuf) (cfg : Config) (hq : Bool)
    (hiTier : Except Unit Img) (fastTier : Img) : Except SharpErr RawBuf :=
  let blob :=
    if hq then
      match hiTier with
      | Except.ok b => b
      | Except.error _ => fastTier
    else fastTier
  let rgba := ensureAlpha blob
  if hq then smoothAlpha cfg rgba.width rgba.height
  else Except.ok (pngEncode rgba)

/-! ## Encoder policy (webp options, lines 164 to 171) -/

/-- The option record passed to the webp encoder. -/
structure WebpOptions where
  quality : ℕ
  alphaQuality : ℕ
  lossless : Bool
  smartSubsample : Bool
  effort : ℕ
  nearLossless : Bool
  deriving Repr, DecidableEq

/-- The options built by toSquareWebP from the environment: quality
defaults to 82, alphaQuality to 80, effort to 6; lossless and nearLossless
are hard-coded false and smartSubsample hard-coded true. -/
def webpOptions (qEnv aqEnv eEnv : Option ℕ) : WebpOptions :=
  { quality := qEnv.getD 82, alphaQuality := aqEnv.getD 80,
    lossless := false, smartSubsample := true,
    effort := eEnv.getD 6, nearLossless := false }

/-! ## Orchestration (processOne, lines 175 to 201) -/

/-- The crop selection made by processOne: with an analyzer result, the
crop is the bounding-box region and the centroid is translated to
crop-local coordinates by subtracting the box corner; otherwise the crop
is the full image with no centroid. -/
def cropSpec (a : ℕ → ℕ) (w h t : ℕ) : ℕ × ℕ × Option (ℚ × ℚ) :=
  match findAlphaBBoxAndCentroid a w h t with
  | none => (w, h, none)
  | some r =>
      ((r.bbox2 - r.bbox0).toNat, (r.bbox3 - r.bbox1).toNat,
        some (r.cx - (r.bbox0 : ℚ), r.cy - (r.bbox1 : ℚ)))

/-- All numeric quantities the pipeline computes for one image. -/
structure Placement where
  box : Option (ℤ × ℤ × ℤ × ℤ)
  cw : ℕ
  ch : ℕ
  centroid : Option (ℚ × ℚ)
  maxC : ℚ
  scale : ℚ
  nw : ℤ
  nh : ℤ
  left : ℤ
  top : ℤ
  deriving Repr, DecidableEq

/-- Run the analyzer, the cropper and the compositor geometry end to end
on an alpha buffer, recording every quantity of interest. -/
def pipelinePlacement (cfg : Config) (a : ℕ → ℕ) (w h : ℕ) : Placement :=
  match findAlphaBBoxAndCentroid a w h cfg.athresh with
  | none =>
      { box := none, cw := w, ch := h, centroid := none,
        maxC := maxContentOf cfg, scale := scaleOf cfg w h,
        nw := resizedW cfg w h, nh := resizedH cfg w h,
        left := placeLeft cfg w h none, top := placeTop cfg w h none }
  | some r =>
      let cw := (r.bbox2 - r.bbox0).toNat
      let ch := (r.bbox3 - r.bbox1).toNat
      let c : ℚ × ℚ := (r.cx - (r.bbox0 : ℚ), r.cy - (r.bbox1 : ℚ))
      { box := some (r.bbox0, r.bbox1, r.bbox2, r.bbox3),
        cw := cw, ch := ch, centroid := some c,
        maxC := maxContentOf cfg, scale := scaleOf cfg cw ch,
        nw := resizedW cfg cw ch, nh := resizedH cfg cw ch,
        left := placeLeft cfg cw ch (some c),
        top := placeTop cfg cw ch (some c) }

/-- Constant alpha buffer, e.g. a fully opaque image at value 255. -/
def constAlpha (v : ℕ) : ℕ → ℕ := fun _ => v

/-- A simple concrete instantiation of the opaque resize primitive,
honouring the requested output dimensions (nearest-neighbour flavoured,
the sampling itself is irrelevant to the claims). -/
def modelResize (img : Img) (w h : ℕ) : Img :=
  { width := w, height := h, hasAlpha := img.hasAlpha, px := img.px }

/-- A simple concrete instantiation of the opaque over-blend primitive:
over a fully transparent destination the source wins. -/
def modelBlend (s d : RGBA) : RGBA := if d.a = 0 then s else d

/-- A small concrete 2 by 2 alpha buffer: only the pixel at (1, 1), at
flat index 3, has nonzero alpha 200. -/
def aEx : ℕ → ℕ := fun i => if i = 3 then 200 else 0

/-! ## Helper lemmas about left folds of min, max and sums -/

theorem foldl_min_le_init {α : Type} [LinearOrder α] (a : α) (l : List α) :
    List.foldl min a l ≤ a := by
  induction l generalizing a with
  | nil => exact le_refl a
  | cons b l ih => exact le_trans (ih (min a b)) (min_le_left a b)

theorem foldl_min_le_mem {α : Type} [LinearOrder α] {x : α} (a : α)
    (l : List α) (hx : x ∈ l) : List.foldl min a l ≤ x := by
  induction l generalizing a with
  | nil => cases hx
  | cons b l ih =>
    rcases List.mem_cons.mp hx with hb | hb
    · subst hb
      simp only [List.foldl_cons]
      exact le_trans (foldl_min_le_init _ _) (min_le_right a x)
    · exact ih (min a b) hb

theorem foldl_min_eq_init_or_mem {α : Type} [LinearOrder α] (a : α)
    (l : List α) : List.foldl min a l = a ∨ List.foldl min a l ∈ l := by
  induction l generalizing a with
  | nil => exact Or.inl rfl
  | cons b l ih =>
    simp only [List.foldl_cons]
    rcases ih (min a b) with hi | hi
    · rw [hi]
      rcases le_total a b with hab | hab
      · exact Or.inl (min_eq_left hab)
      · exact Or.inr (by rw [min_eq_right hab]; exact List.mem_cons_self b l)
    · exact Or.inr (List.mem_cons_of_mem b hi)

theorem le_foldl_max_init {α : Type} [LinearOrder α] (a : α) (l : List α) :
    a ≤ List.foldl max a l := by
  induction l generalizing a with
  | nil => exact le_refl a
  | cons b l ih => exact le_trans (le_max_left a b) (ih (max a b))

theorem le_foldl_max_mem {α : Type} [LinearOrder α] {x : α} (a : α)
    (l : List α) (hx : x ∈ l) : x ≤ List.foldl max a l := by
  induction l generalizing a with
  | nil => cases hx
  | cons b l ih =>
    rcases List.mem_cons.mp hx with hb | hb
    · subst hb
      simp only [List.foldl_cons]
      exact le_trans (le_max_right a x) (le_foldl_max_init _ _)
    · exact ih (max a b) hb

theorem foldl_max_eq_init_or_mem {α : Type} [LinearOrder α] (a : α)
    (l : List α) : List.foldl max a l = a ∨ List.foldl max a l ∈ l := by
  induction l generalizing a with
  | nil => exact Or.inl rfl
  | cons b l ih =>
    simp only [List.foldl_cons]
    rcases ih (max a b) with hi | hi
    · rw [hi]
      rcases le_total a b with hab | hab
      · exact Or.inr (by rw [max_eq_right hab]; exact List.mem_cons_self b l)
      · exact Or.inl (max_eq_left hab)
    · exact Or.inr (List.mem_cons_of_mem b hi)

theorem sum_map_mul_left {α : Type} (l : List α) (c : ℕ) (f : α → ℕ) :
    (l.map (fun p => c * f p)).sum = c * (l.map f).sum := by
  induction l with
  | nil => simp
  | cons a l ih => simp [ih, Nat.mul_add]

theorem sum_map_mul_right {α : Type} (l : List α) (c : ℕ) (f : α → ℕ) :
    (l.map (fun p => f p * c)).sum = (l.map f).sum * c := by
  induction l with
  | nil => simp
  | cons a l ih => simp [ih, Nat.add_mul]

theorem sum_map_pos_of_mem {α : Type} [DecidableEq α] {l : List α}
    {p : α} (f : α → ℕ) (hp : p ∈ l) (hf : 0 < f p) : 0 < (l.map f).sum := by
  induction l with
  | nil => cases hp
  | cons a l ih =>
    rcases List.mem_cons.mp hp with hb | hb
    · subst hb
      simp only [List.map_cons, List.sum_cons]
      exact Nat.lt_of_lt_of_le hf (Nat.le_add_right _ _)
    · simp only [List.map_cons, List.sum_cons]
      exact Nat.lt_of_lt_of_le (ih hb) (Nat.le_add_left _ _)

/-! ## The scan loop as folds over the foreground pixels -/

/-- The foreground pixels of a coordinate list: those whose alpha strictly
exceeds the threshold. -/
def fgList (a : ℕ → ℕ) (w t : ℕ) (L : List (ℕ × ℕ)) : List (ℕ × ℕ) :=
  L.filter (fun p => t < a (p.2 * w + p.1))

theorem mem_fgList {a : ℕ → ℕ} {w t : ℕ} {L : List (ℕ × ℕ)} {p : ℕ × ℕ} :
    p ∈ fgList a w t L ↔ p ∈ L ∧ t < a (p.2 * w + p.1) := by
  simp [fgList, List.mem_filter]

theorem mem_pixList {w h x y : ℕ} :
    (x, y) ∈ pixList w h ↔ x < w ∧ y < h := by
  constructor
  · intro hm
    rcases List.mem_flatMap.mp hm with ⟨b, hb, hmem⟩
    rcases List.mem_map.mp hmem with ⟨c, hc, heq⟩
    cases heq
    exact ⟨List.mem_range.mp hc, List.mem_range.mp hb⟩
  · rintro ⟨hx, hy⟩
    exact List.mem_flatMap.mpr ⟨y, List.mem_range.mpr hy,
      List.mem_map.mpr ⟨x, List.mem_range.mpr hx, rfl⟩⟩

theorem foldl_scanStep_eq (a : ℕ → ℕ) (w t : ℕ) (L : List (ℕ × ℕ))
    (s : ScanState) :
    List.foldl (scanStep a w t) s L =
      { x0 := List.foldl min s.x0 ((fgList a w t L).map (fun p => (p.1 : ℤ))),
        y0 := List.foldl min s.y0 ((fgList a w t L).map (fun p => (p.2 : ℤ))),
        x1 := List.foldl max s.x1 ((fgList a w t L).map (fun p => (p.1 : ℤ))),
        y1 := List.foldl max s.y1 ((fgList a w t L).map (fun p => (p.2 : ℤ))),
        sumA := s.sumA + ((fgList a w t L).map
          (fun p => a (p.2 * w + p.1))).sum,
        sumX := s.sumX + ((fgList a w t L).map
          (fun p => a (p.2 * w + p.1) * p.1)).sum,
        sumY := s.sumY + ((fgList a w t L).map
          (fun p => a (p.2 * w + p.1) * p.2)).sum } := by
  induction L generalizing s with
  | nil => simp [fgList]
  | cons p L ih =>
    simp only [List.foldl_cons]
    rw [ih]
    by_cases hc : t < a (p.2 * w + p.1)
    · simp [fgList, scanStep, hc, List.filter_cons, Nat.add_assoc]
    · simp [fgList, scanStep, hc, List.filter_cons]

/-! ## Characterization of the scan extremes and sums -/

theorem foldl_min_max_char (F : List (ℕ × ℕ)) (g : ℕ × ℕ → ℕ) (b : ℕ)
    (hb : ∀ p ∈ F, g p < b) (q : ℕ × ℕ) (hq : q ∈ F) :
    ∃ m0 m1 : ℕ,
      List.foldl min ((b : ℕ) : ℤ) (F.map (fun p => (g p : ℤ))) = (m0 : ℤ) ∧
      List.foldl max (-1 : ℤ) (F.map (fun p => (g p : ℤ))) = (m1 : ℤ) ∧
      (∃ p0, p0 ∈ F ∧ g p0 = m0) ∧ (∃ p1, p1 ∈ F ∧ g p1 = m1) ∧
      ∀ p ∈ F, m0 ≤ g p ∧ g p ≤ m1 := by
  have hle : ∀ p ∈ F,
      List.foldl min ((b : ℕ) : ℤ) (F.map (fun p => (g p : ℤ))) ≤ (g p : ℤ) :=
    fun p hp => foldl_min_le_mem _ _ (List.mem_map_of_mem _ hp)
  have hge : ∀ p ∈ F,
      (g p : ℤ) ≤ List.foldl max (-1 : ℤ) (F.map (fun p => (g p : ℤ))) :=
    fun p hp => le_foldl_max_mem _ _ (List.mem_map_of_mem _ hp)
  rcases foldl_min_eq_init_or_mem ((b : ℕ) : ℤ)
      (F.map (fun p => (g p : ℤ))) with h0 | h0
  · exfalso
    have hbq := hle q hq
    rw [h0] at hbq
    have hbq2 : b ≤ g q := by exact_mod_cast hbq
    exact absurd (hb q hq) (Nat.not_lt.mpr hbq2)
  · rcases List.mem_map.mp h0 with ⟨p0, hp0F, hp0⟩
    rcases foldl_max_eq_init_or_mem (-1 : ℤ)
        (F.map (fun p => (g p : ℤ))) with h1 | h1
    · exfalso
      have hgq := hge q hq
      rw [h1] at hgq
      omega
    · rcases List.mem_map.mp h1 with ⟨p1, hp1F, hp1⟩
      refine ⟨g p0, g p1, hp0.symm, hp1.symm, ⟨p0, hp0F, rfl⟩,
        ⟨p1, hp1F, rfl⟩, fun p hp => ⟨?_, ?_⟩⟩
      · have := hle p hp
        rw [← hp0] at this
        exact_mod_cast this
      · have := hge p hp
        rw [← hp1] at this
        exact_mod_cast this

theorem sum_bounds (F : List (ℕ × ℕ)) (fA : ℕ × ℕ → ℕ) (g : ℕ × ℕ → ℕ)
    (m0 m1 : ℕ) (hbound : ∀ p ∈ F, m0 ≤ g p ∧ g p ≤ m1) :
    (F.map fA).sum * m0 ≤ (F.map (fun p => fA p * g p)).sum ∧
    (F.map (fun p => fA p * g p)).sum ≤ (F.map fA).sum * m1 := by
  constructor
  · rw [← sum_map_mul_right]
    exact List.sum_le_sum (fun p hp => Nat.mul_le_mul_left _ (hbound p hp).1)
  · rw [← sum_map_mul_right]
    exact List.sum_le_sum (fun p hp => Nat.mul_le_mul_left _ (hbound p hp).2)

/-- Central characterization of the analyzer on a buffer with at least one
foreground pixel: it returns a record whose box corners are foreground
coordinates (attained minima and maxima), every foreground pixel lies
between the corners, and the weighted sums are bounded by the extreme
coordinates times the total alpha mass. -/
theorem find_found (a : ℕ → ℕ) (w h t : ℕ)
    (hfg : ∃ x, x < w ∧ ∃ y, y < h ∧ t < a (y * w + x)) :
    ∃ m0 m1 n0 n1 sA sX sY : ℕ,
      findAlphaBBoxAndCentroid a w h t = some
        { bbox0 := (m0 : ℤ), bbox1 := (n0 : ℤ),
          bbox2 := (m1 : ℤ) + 1, bbox3 := (n1 : ℤ) + 1,
          cx := (sX : ℚ) / (sA : ℚ), cy := (sY : ℚ) / (sA : ℚ),
          w := w, h := h } ∧
      m0 < w ∧ m1 < w ∧ n0 < h ∧ n1 < h ∧
      (∃ y, y < h ∧ t < a (y * w + m0)) ∧
      (∃ y, y < h ∧ t < a (y * w + m1)) ∧
      (∃ x, x < w ∧ t < a (n0 * w + x)) ∧
      (∃ x, x < w ∧ t < a (n1 * w + x)) ∧
      (∀ x y, x < w → y < h → t < a (y * w + x) →
        m0 ≤ x ∧ x ≤ m1 ∧ n0 ≤ y ∧ y ≤ n1) ∧
      0 < sA ∧ sA * m0 ≤ sX ∧ sX ≤ sA * m1 ∧ sA * n0 ≤ sY ∧ sY ≤ sA * n1 := by
  obtain ⟨qx, hqx, qy, hqy, hqa⟩ := hfg
  have hq : (qx, qy) ∈ fgList a w t (pixList w h) :=
    mem_fgList.mpr ⟨mem_pixList.mpr ⟨hqx, hqy⟩, hqa⟩
  have hFw : ∀ p ∈ fgList a w t (pixList w h), p.1 < w :=
    fun p hp => (mem_pixList.mp (mem_fgList.mp hp).1).1
  have hFh : ∀ p ∈ fgList a w t (pixList w h), p.2 < h :=
    fun p hp => (mem_pixList.mp (mem_fgList.mp hp).1).2
  obtain ⟨m0, m1, hX0, hX1, ⟨p0, hp0F, hp0⟩, ⟨p1, hp1F, hp1⟩, hXb⟩ :=
    foldl_min_max_char (fgList a w t (pixList w h)) Prod.fst w hFw _ hq
  obtain ⟨n0, n1, hY0, hY1, ⟨r0, hr0F, hr0⟩, ⟨r1, hr1F, hr1⟩, hYb⟩ :=
    foldl_min_max_char (fgList a w t (pixList w h)) Prod.snd h hFh _ hq
  have hmm : m0 ≤ m1 := le_trans (hXb _ hq).1 (hXb _ hq).2
  have hnn : n0 ≤ n1 := le_trans (hYb _ hq).1 (hYb _ hq).2
  have hfind : findAlphaBBoxAndCentroid a w h t = some
      { bbox0 := (m0 : ℤ), bbox1 := (n0 : ℤ),
        bbox2 := (m1 : ℤ) + 1, bbox3 := (n1 : ℤ) + 1,
        cx := (((fgList a w t (pixList w h)).map
            (fun p => a (p.2 * w + p.1) * p.1)).sum : ℚ) /
          (((fgList a w t (pixList w h)).map
            (fun p => a (p.2 * w + p.1))).sum : ℚ),
        cy := (((fgList a w t (pixList w h)).map
            (fun p => a (p.2 * w + p.1) * p.2)).sum : ℚ) /
          (((fgList a w t (pixList w h)).map
            (fun p => a (p.2 * w + p.1))).sum : ℚ),
        w := w, h := h } := by
    simp only [findAlphaBBoxAndCentroid, runScan, foldl_scanStep_eq, scanInit]
    rw [hX0, hX1, hY0, hY1]
    rw [if_neg (by push_neg
                   exact ⟨by exact_mod_cast hmm, by exact_mod_cast hnn⟩)]
    simp
  refine ⟨m0, m1, n0, n1,
    ((fgList a w t (pixList w h)).map (fun p => a (p.2 * w + p.1))).sum,
    ((fgList a w t (pixList w h)).map (fun p => a (p.2 * w + p.1) * p.1)).sum,
    ((fgList a w t (pixList w h)).map (fun p => a (p.2 * w + p.1) * p.2)).sum,
    hfind, hp0 ▸ hFw p0 hp0F, hp1 ▸ hFw p1 hp1F,
    hr0 ▸ hFh r0 hr0F, hr1 ▸ hFh r1 hr1F,
    ⟨p0.2, hFh p0 hp0F, by rw [← hp0]; exact (mem_fgList.mp hp0F).2⟩,
    ⟨p1.2, hFh p1 hp1F, by rw [← hp1]; exact (mem_fgList.mp hp1F).2⟩,
    ⟨r0.1, hFw r0 hr0F, by rw [← hr0]; exact (mem_fgList.mp hr0F).2⟩,
    ⟨r1.1, hFw r1 hr1F, by rw [← hr1]; exact (mem_fgList.mp hr1F).2⟩,
    ?_, ?_, ?_, ?_, ?_, ?_⟩
  · intro x y hxw hyh hxa
    have hmem : (x, y) ∈ fgList a w t (pixList w h) :=
      mem_fgList.mpr ⟨mem_pixList.mpr ⟨hxw, hyh⟩, hxa⟩
    exact ⟨(hXb _ hmem).1, (hXb _ hmem).2, (hYb _ hmem).1, (hYb _ hmem).2⟩
  · exact sum_map_pos_of_mem _ hq (Nat.lt_of_le_of_lt (Nat.zero_le t) hqa)
  · exact (sum_bounds _ _ Prod.fst m0 m1 hXb).1
  · exact (sum_bounds _ _ Prod.fst m0 m1 hXb).2
  · exact (sum_bounds _ _ Prod.snd n0 n1 hYb).1
  · exact (sum_bounds _ _ Prod.snd n0 n1 hYb).2

/-! ## Aggregates over the pixel grid and the constant-alpha buffer -/

theorem le_foldl_min {α : Type} [LinearOrder α] {c : α} (a : α)
    (l : List α) (ha : c ≤ a) (hl : ∀ x ∈ l, c ≤ x) :
    c ≤ List.foldl min a l := by
  induction l generalizing a with
  | nil => exact ha
  | cons b l ih =>
    exact ih _ (le_min ha (hl b (List.mem_cons_self b l)))
      (fun x hx => hl x (List.mem_cons_of_mem _ hx))

theorem foldl_max_le {α : Type} [LinearOrder α] {c : α} (a : α)
    (l : List α) (ha : a ≤ c) (hl : ∀ x ∈ l, x ≤ c) :
    List.foldl max a l ≤ c := by
  induction l generalizing a with
  | nil => exact ha
  | cons b l ih =>
    exact ih _ (max_le ha (hl b (List.mem_cons_self b l)))
      (fun x hx => hl x (List.mem_cons_of_mem _ hx))

theorem pixList_succ (w h : ℕ) :
    pixList w (h + 1) = pixList w h ++ (List.range w).map (fun x => (x, h)) := by
  simp [pixList, List.range_succ]

theorem sum_map_const {α : Type} (l : List α) (c : ℕ) :
    (l.map (fun _ => c)).sum = l.length * c := by
  induction l with
  | nil => simp
  | cons a l ih => simp [ih, Nat.succ_mul]; omega

theorem length_pixList (w h : ℕ) : (pixList w h).length = h * w := by
  induction h with
  | zero => simp [pixList]
  | succ h ih =>
    rw [pixList_succ]
    simp [ih, Nat.succ_mul]

theorem sum_fst_pixList (w h : ℕ) :
    ((pixList w h).map (fun p => p.1)).sum = h * (List.range w).sum := by
  induction h with
  | zero => simp [pixList]
  | succ h ih =>
    rw [pixList_succ]
    simp only [List.map_append, List.sum_append, ih, List.map_map]
    have hrow : ((List.range w).map ((fun p => p.1) ∘ (fun x => (x, h)))).sum
        = (List.range w).sum := by
      simp [Function.comp_def]
    rw [hrow, Nat.succ_mul]

theorem sum_snd_pixList (w h : ℕ) :
    ((pixList w h).map (fun p => p.2)).sum = w * (List.range h).sum := by
  induction h with
  | zero => simp [pixList]
  | succ h ih =>
    rw [pixList_succ, List.range_succ]
    simp only [List.map_append, List.sum_append, ih, List.map_map]
    have hrow : ((List.range w).map ((fun p => p.2) ∘ (fun x => (x, h)))).sum
        = w * h := by
      simp only [Function.comp_def]
      rw [sum_map_const, List.length_range]
    rw [hrow]
    simp [Nat.mul_add]

theorem fgList_const (v w t : ℕ) (hv : t < v) (L : List (ℕ × ℕ)) :
    fgList (constAlpha v) w t L = L := by
  refine List.filter_eq_self.mpr (fun p _ => ?_)
  simp [constAlpha, hv]

/-- On a constant buffer of value v strictly above the threshold, the scan
reaches the full-image extremes and the sums have closed forms. -/
theorem runScan_const (v w h t : ℕ) (hv : t < v) (hw : 1 ≤ w) (hh : 1 ≤ h) :
    runScan (constAlpha v) w h t =
      { x0 := 0, y0 := 0, x1 := (w : ℤ) - 1, y1 := (h : ℤ) - 1,
        sumA := v * (h * w),
        sumX := v * (h * (List.range w).sum),
        sumY := v * (w * (List.range h).sum) } := by
  rw [runScan, foldl_scanStep_eq, fgList_const v w t hv]
  have hmem0 : ((0 : ℕ), (0 : ℕ)) ∈ pixList w h :=
    mem_pixList.mpr ⟨hw, hh⟩
  have hmemw : ((w - 1 : ℕ), (0 : ℕ)) ∈ pixList w h :=
    mem_pixList.mpr ⟨by omega, hh⟩
  have hmemh : ((0 : ℕ), (h - 1 : ℕ)) ∈ pixList w h :=
    mem_pixList.mpr ⟨hw, by omega⟩
  simp only [scanInit, ScanState.mk.injEq]
  refine ⟨?_, ?_, ?_, ?_, ?_, ?_, ?_⟩
  · refine le_antisymm ?_ ?_
    · exact foldl_min_le_mem _ _
        (List.mem_map_of_mem (fun p => ((p.1 : ℕ) : ℤ)) hmem0)
    · refine le_foldl_min _ _ (by exact_mod_cast Nat.zero_le w) ?_
      intro x hx
      rcases List.mem_map.mp hx with ⟨p, _, hp⟩
      omega
  · refine le_antisymm ?_ ?_
    · exact foldl_min_le_mem _ _
        (List.mem_map_of_mem (fun p => ((p.2 : ℕ) : ℤ)) hmem0)
    · refine le_foldl_min _ _ (by exact_mod_cast Nat.zero_le h) ?_
      intro x hx
      rcases List.mem_map.mp hx with ⟨p, _, hp⟩
      omega
  · refine le_antisymm ?_ ?_
    · refine foldl_max_le _ _ (by omega) ?_
      intro x hx
      rcases List.mem_map.mp hx with ⟨p, hpL, hp⟩
      have hpw : p.1 < w := (mem_pixList.mp hpL).1
      omega
    · have := le_foldl_max_mem (-1 : ℤ)
        ((pixList w h).map (fun p => ((p.1 : ℕ) : ℤ)))
        (List.mem_map_of_mem (fun p => ((p.1 : ℕ) : ℤ)) hmemw)
      have hc : (((w - 1 : ℕ) : ℤ)) = (w : ℤ) - 1 := by omega
      rw [hc] at this
      exact this
  · refine le_antisymm ?_ ?_
    · refine foldl_max_le _ _ (by omega) ?_
      intro x hx
      rcases List.mem_map.mp hx with ⟨p, hpL, hp⟩
      have hph : p.2 < h := (mem_pixList.mp hpL).2
      omega
    · have := le_foldl_max_mem (-1 : ℤ)
        ((pixList w h).map (fun p => ((p.2 : ℕ) : ℤ)))
        (List.mem_map_of_mem (fun p => ((p.2 : ℕ) : ℤ)) hmemh)
      have hc : (((h - 1 : ℕ) : ℤ)) = (h : ℤ) - 1 := by omega
      rw [hc] at this
      exact this
  · simp only [constAlpha, Nat.zero_add]
    rw [sum_map_const, length_pixList]
    exact Nat.mul_comm _ _
  · simp only [constAlpha, Nat.zero_add]
    rw [sum_map_mul_left, sum_fst_pixList]
  · simp only [constAlpha, Nat.zero_add]
    rw [sum_map_mul_left, sum_snd_pixList]

/-- The analyzer on a constant buffer of value v above the threshold:
bounding box is the full image and the centroid is the mean position. -/
theorem find_const (v w h t : ℕ) (hv : t < v) (hw : 1 ≤ w) (hh : 1 ≤ h) :
    findAlphaBBoxAndCentroid (constAlpha v) w h t = some
      { bbox0 := 0, bbox1 := 0, bbox2 := (w : ℤ), bbox3 := (h : ℤ),
        cx := ((v * (h * (List.range w).sum) : ℕ) : ℚ) /
          ((v * (h * w) : ℕ) : ℚ),
        cy := ((v * (w * (List.range h).sum) : ℕ) : ℚ) /
          ((v * (h * w) : ℕ) : ℚ),
        w := w, h := h } := by
  simp only [findAlphaBBoxAndCentroid, runScan_const v w h t hv hw hh]
  rw [if_neg (by omega)]
  simp only [Option.some.injEq, AnalyzerResult.mk.injEq, and_true, true_and]
  omega

/-- Rewriting lemma for the pipeline when the analyzer finds a result:
the crop is the bounding-box region, the centroid is translated to
crop-local coordinates, and the compositor geometry runs on the crop. -/
theorem pipelinePlacement_some (cfg : Config) (a : ℕ → ℕ) (w h : ℕ)
    (r : AnalyzerResult)
    (hf : findAlphaBBoxAndCentroid a w h cfg.athresh = some r) :
    pipelinePlacement cfg a w h =
      { box := some (r.bbox0, r.bbox1, r.bbox2, r.bbox3),
        cw := (r.bbox2 - r.bbox0).toNat, ch := (r.bbox3 - r.bbox1).toNat,
        centroid := some (r.cx - (r.bbox0 : ℚ), r.cy - (r.bbox1 : ℚ)),
        maxC := maxContentOf cfg,
        scale := scaleOf cfg (r.bbox2 - r.bbox0).toNat
          (r.bbox3 - r.bbox1).toNat,
        nw := resizedW cfg (r.bbox2 - r.bbox0).toNat
          (r.bbox3 - r.bbox1).toNat,
        nh := resizedH cfg (r.bbox2 - r.bbox0).toNat
          (r.bbox3 - r.bbox1).toNat,
        left := placeLeft cfg (r.bbox2 - r.bbox0).toNat
          (r.bbox3 - r.bbox1).toNat
          (some (r.cx - (r.bbox0 : ℚ), r.cy - (r.bbox1 : ℚ))),
        top := placeTop cfg (r.bbox2 - r.bbox0).toNat
          (r.bbox3 - r.bbox1).toNat
          (some (r.cx - (r.bbox0 : ℚ), r.cy - (r.bbox1 : ℚ))) } := by
  unfold pipelinePlacement
  rw [hf]

set_option maxRecDepth 40000 in
/-- The full placement computation on a fully opaque 1000 by 600 buffer
with the default configuration: the analyzer finds the full-image box and
the mean-position centroid (499.5, 299.5), so the centroid branch places
the 1800 by 1080 resized crop at left 101, top 461. -/
theorem pipeline_opaque_1000x600 :
    pipelinePlacement defaultConfig (constAlpha 255) 1000 600 =
      { box := some (0, 0, 1000, 600), cw := 1000, ch := 600,
        centroid := some (999/2, 599/2), maxC := 1800, scale := 9/5,
        nw := 1800, nh := 1080, left := 101, top := 461 } := by
  have hsum1 : (List.range 1000).sum = 499500 := by decide
  have hsum2 : (List.range 600).sum = 179700 := by decide
  have hfind : findAlphaBBoxAndCentroid (constAlpha 255) 1000 600
      defaultConfig.athresh = some
      { bbox0 := 0, bbox1 := 0, bbox2 := ((1000 : ℕ) : ℤ),
        bbox3 := ((600 : ℕ) : ℤ),
        cx := ((255 * (600 * 499500) : ℕ) : ℚ) /
          ((255 * (600 * 1000) : ℕ) : ℚ),
        cy := ((255 * (1000 * 179700) : ℕ) : ℚ) /
          ((255 * (600 * 1000) : ℕ) : ℚ),
        w := 1000, h := 600 } := by
    have h0 := find_const 255 1000 600 16 (by decide) (by decide) (by decide)
    rw [hsum1, hsum2] at h0
    exact h0
  rw [pipelinePlacement_some defaultConfig (constAlpha 255) 1000 600 _ hfind]
  have hcw : ((((1000 : ℕ) : ℤ) - 0).toNat) = 1000 := by decide
  have hch : ((((600 : ℕ) : ℤ) - 0).toNat) = 600 := by decide
  have hcx : ((255 * (600 * 499500) : ℕ) : ℚ) /
      ((255 * (600 * 1000) : ℕ) : ℚ) - ((0 : ℤ) : ℚ) = 999/2 := by norm_num
  have hcy : ((255 * (1000 * 179700) : ℕ) : ℚ) /
      ((255 * (600 * 1000) : ℕ) : ℚ) - ((0 : ℤ) : ℚ) = 599/2 := by norm_num
  simp only [hcw, hch, hcx, hcy]
  have hsc : scaleOf defaultConfig 1000 600 = 9/5 := by
    norm_num [scaleOf, maxContentOf, defaultConfig]
  have hnw : resizedW defaultConfig 1000 600 = 1800 := by
    norm_num [resizedW, hsc]
  have hnh : resizedH defaultConfig 1000 600 = 1080 := by
    norm_num [resizedH, hsc]
  have hleft : placeLeft defaultConfig 1000 600 (some (999/2, 599/2)) =
      101 := by
    simp only [placeLeft, hsc]
    norm_num [jsRound, defaultConfig]
  have htop : placeTop defaultConfig 1000 600 (some (999/2, 599/2)) =
      461 := by
    simp only [placeTop, hsc]
    norm_num [jsRound, biasOf, defaultConfig]
  have hmc : maxContentOf defaultConfig = 1800 := by
    norm_num [maxContentOf, defaultConfig]
  simp only [hsc, hnw, hnh, hleft, htop, hmc, Placement.mk.injEq]
  norm_num

/-! ## Claim theorems: analyzer -/

/-- Claim C1: whenever at least one pixel has alpha strictly above the
threshold, the analyzer returns a half-open bounding box that contains
every above-threshold pixel, is contained in every box that does (so it is
the minimal axis-aligned box), and satisfies 0 ≤ x0 < x1 ≤ width and
0 ≤ y0 < y1 ≤ height. -/
theorem alpha_bbox_tight (a : ℕ → ℕ) (w h t : ℕ)
    (hfg : ∃ x, x < w ∧ ∃ y, y < h ∧ t < a (y * w + x)) :
    ∃ r, findAlphaBBoxAndCentroid a w h t = some r ∧
      (∀ x y, x < w → y < h → t < a (y * w + x) →
        r.bbox0 ≤ (x : ℤ) ∧ (x : ℤ) < r.bbox2 ∧
        r.bbox1 ≤ (y : ℤ) ∧ (y : ℤ) < r.bbox3) ∧
      (∀ u0 v0 u1 v1 : ℤ,
        (∀ x y, x < w → y < h → t < a (y * w + x) →
          u0 ≤ (x : ℤ) ∧ (x : ℤ) < u1 ∧ v0 ≤ (y : ℤ) ∧ (y : ℤ) < v1) →
        u0 ≤ r.bbox0 ∧ r.bbox2 ≤ u1 ∧ v0 ≤ r.bbox1 ∧ r.bbox3 ≤ v1) ∧
      0 ≤ r.bbox0 ∧ r.bbox0 < r.bbox2 ∧ r.bbox2 ≤ (w : ℤ) ∧
      0 ≤ r.bbox1 ∧ r.bbox1 < r.bbox3 ∧ r.bbox3 ≤ (h : ℤ) := by
  obtain ⟨m0, m1, n0, n1, sA, sX, sY, hfind, hm0w, hm1w, hn0h, hn1h,
    ⟨ya, hya, haa⟩, ⟨yb, hyb, hab⟩, ⟨xc, hxc, hac⟩, ⟨xd, hxd, had⟩,
    hcont, _, _, _, _, _⟩ := find_found a w h t hfg
  have hbm : m0 ≤ m1 ∧ n0 ≤ n1 := by
    have h1 := hcont m0 ya hm0w hya haa
    have h2 := hcont xc n0 hxc hn0h hac
    exact ⟨le_trans h1.1 h1.2.1, le_trans h2.2.2.1 h2.2.2.2⟩
  refine ⟨_, hfind, ?_, ?_, ?_, ?_, ?_, ?_, ?_, ?_⟩
  · intro x y hxw hyh hxa
    have hc := hcont x y hxw hyh hxa
    simp only
    refine ⟨?_, ?_, ?_, ?_⟩ <;> omega
  · intro u0 v0 u1 v1 hu
    have h1 := hu m0 ya hm0w hya haa
    have h2 := hu m1 yb hm1w hyb hab
    have h3 := hu xc n0 hxc hn0h hac
    have h4 := hu xd n1 hxd hn1h had
    simp only
    refine ⟨?_, ?_, ?_, ?_⟩ <;> omega
  · simp only
    omega
  · simp only
    omega
  · simp only
    omega
  · simp only
    omega
  · simp only
    omega
  · simp only
    omega

/-- Witness for C1 on the concrete 2 by 2 buffer aEx whose only
foreground pixel is (1, 1). -/
theorem alpha_bbox_tight_witness :
    (∃ x, x < 2 ∧ ∃ y, y < 2 ∧ 16 < aEx (y * 2 + x)) ∧
    (∃ r, findAlphaBBoxAndCentroid aEx 2 2 16 = some r ∧
      (∀ x y, x < 2 → y < 2 → 16 < aEx (y * 2 + x) →
        r.bbox0 ≤ (x : ℤ) ∧ (x : ℤ) < r.bbox2 ∧
        r.bbox1 ≤ (y : ℤ) ∧ (y : ℤ) < r.bbox3) ∧
      (∀ u0 v0 u1 v1 : ℤ,
        (∀ x y, x < 2 → y < 2 → 16 < aEx (y * 2 + x) →
          u0 ≤ (x : ℤ) ∧ (x : ℤ) < u1 ∧ v0 ≤ (y : ℤ) ∧ (y : ℤ) < v1) →
        u0 ≤ r.bbox0 ∧ r.bbox2 ≤ u1 ∧ v0 ≤ r.bbox1 ∧ r.bbox3 ≤ v1) ∧
      0 ≤ r.bbox0 ∧ r.bbox0 < r.bbox2 ∧ r.bbox2 ≤ ((2 : ℕ) : ℤ) ∧
      0 ≤ r.bbox1 ∧ r.bbox1 < r.bbox3 ∧ r.bbox3 ≤ ((2 : ℕ) : ℤ)) := by
  have hfg : ∃ x, x < 2 ∧ ∃ y, y < 2 ∧ 16 < aEx (y * 2 + x) := by decide
  exact ⟨hfg, alpha_bbox_tight aEx 2 2 16 hfg⟩

/-- Claim C6: whenever the analyzer finds a foreground pixel, the
alpha-weighted centroid lies inside the half-open bounding box:
x0 ≤ cx < x1 and y0 ≤ cy < y1. -/
theorem centroid_within_bbox (a : ℕ → ℕ) (w h t : ℕ)
    (hfg : ∃ x, x < w ∧ ∃ y, y < h ∧ t < a (y * w + x)) :
    ∃ r, findAlphaBBoxAndCentroid a w h t = some r ∧
      (r.bbox0 : ℚ) ≤ r.cx ∧ r.cx < (r.bbox2 : ℚ) ∧
      (r.bbox1 : ℚ) ≤ r.cy ∧ r.cy < (r.bbox3 : ℚ) := by
  obtain ⟨m0, m1, n0, n1, sA, sX, sY, hfind, hm0w, hm1w, hn0h, hn1h,
    _, _, _, _, _, hsA, hX0, hX1, hY0, hY1⟩ := find_found a w h t hfg
  have hsAQ : (0 : ℚ) < (sA : ℚ) := by exact_mod_cast hsA
  refine ⟨_, hfind, ?_, ?_, ?_, ?_⟩
  · simp only
    push_cast
    rw [le_div_iff₀ hsAQ]
    have hn : m0 * sA ≤ sX := by
      rw [Nat.mul_comm]
      exact hX0
    exact_mod_cast hn
  · simp only
    push_cast
    rw [div_lt_iff₀ hsAQ]
    have hn : sX < (m1 + 1) * sA := by
      have hlt : sA * m1 < sA * (m1 + 1) := by
        rw [Nat.mul_succ]
        exact Nat.lt_add_of_pos_right hsA
      calc sX ≤ sA * m1 := hX1
        _ < sA * (m1 + 1) := hlt
        _ = (m1 + 1) * sA := Nat.mul_comm _ _
    exact_mod_cast hn
  · simp only
    push_cast
    rw [le_div_iff₀ hsAQ]
    have hn : n0 * sA ≤ sY := by
      rw [Nat.mul_comm]
      exact hY0
    exact_mod_cast hn
  · simp only
    push_cast
    rw [div_lt_iff₀ hsAQ]
    have hn : sY < (n1 + 1) * sA := by
      have hlt : sA * n1 < sA * (n1 + 1) := by
        rw [Nat.mul_succ]
        exact Nat.lt_add_of_pos_right hsA
      calc sY ≤ sA * n1 := hY1
        _ < sA * (n1 + 1) := hlt
        _ = (n1 + 1) * sA := Nat.mul_comm _ _
    exact_mod_cast hn

/-- Witness for C6 on the concrete buffer aEx. -/
theorem centroid_within_bbox_witness :
    (∃ x, x < 2 ∧ ∃ y, y < 2 ∧ 16 < aEx (y * 2 + x)) ∧
    (∃ r, findAlphaBBoxAndCentroid aEx 2 2 16 = some r ∧
      (r.bbox0 : ℚ) ≤ r.cx ∧ r.cx < (r.bbox2 : ℚ) ∧
      (r.bbox1 : ℚ) ≤ r.cy ∧ r.cy < (r.bbox3 : ℚ)) := by
  have hfg : ∃ x, x < 2 ∧ ∃ y, y < 2 ∧ 16 < aEx (y * 2 + x) := by decide
  exact ⟨hfg, centroid_within_bbox aEx 2 2 16 hfg⟩

/-- Claim C2: on a buffer with no pixel above the threshold the analyzer
returns none, the caller keeps the whole image as the crop with no
centroid, and the compositor offsets are the clamped geometric-centering
formulas rather than centroid-biased placement. -/
theorem no_foreground_fallback (cfg : Config) (a : ℕ → ℕ) (w h : ℕ)
    (hno : ∀ x, x < w → ∀ y, y < h → a (y * w + x) ≤ cfg.athresh) :
    findAlphaBBoxAndCentroid a w h cfg.athresh = none ∧
    pipelinePlacement cfg a w h =
      { box := none, cw := w, ch := h, centroid := none,
        maxC := maxContentOf cfg, scale := scaleOf cfg w h,
        nw := resizedW cfg w h, nh := resizedH cfg w h,
        left := max 0 ⌊((cfg.size : ℚ) - (resizedW cfg w h : ℚ)) / 2⌋,
        top := max 0 ⌊((cfg.size : ℚ) - (resizedH cfg w h : ℚ)) / 2 +
          (biasOf cfg : ℚ)⌋ } := by
  have hF : fgList a w cfg.athresh (pixList w h) = [] := by
    refine List.filter_eq_nil_iff.mpr ?_
    intro p hp
    have hpw := (mem_pixList.mp hp).1
    have hph := (mem_pixList.mp hp).2
    simpa using Nat.not_lt.mpr (hno p.1 hpw p.2 hph)
  have hfind : findAlphaBBoxAndCentroid a w h cfg.athresh = none := by
    simp only [findAlphaBBoxAndCentroid, runScan, foldl_scanStep_eq, scanInit,
      hF]
    rw [if_pos]
    exact Or.inl (by simp; omega)
  refine ⟨hfind, ?_⟩
  simp only [pipelinePlacement, hfind, placeLeft, placeTop]

/-- Witness for C2 on a concrete fully transparent 2 by 2 buffer with the
default configuration. -/
theorem no_foreground_fallback_witness :
    (∀ x, x < 2 → ∀ y, y < 2 →
      constAlpha 0 (y * 2 + x) ≤ defaultConfig.athresh) ∧
    (findAlphaBBoxAndCentroid (constAlpha 0) 2 2 defaultConfig.athresh =
      none ∧
    pipelinePlacement defaultConfig (constAlpha 0) 2 2 =
      { box := none, cw := 2, ch := 2, centroid := none,
        maxC := maxContentOf defaultConfig, scale := scaleOf defaultConfig 2 2,
        nw := resizedW defaultConfig 2 2, nh := resizedH defaultConfig 2 2,
        left := max 0
          ⌊((defaultConfig.size : ℚ) - (resizedW defaultConfig 2 2 : ℚ)) / 2⌋,
        top := max 0
          ⌊((defaultConfig.size : ℚ) - (resizedH defaultConfig 2 2 : ℚ)) / 2 +
            (biasOf defaultConfig : ℚ)⌋ }) := by
  have hno : ∀ x, x < 2 → ∀ y, y < 2 →
      constAlpha 0 (y * 2 + x) ≤ defaultConfig.athresh := by decide
  exact ⟨hno, no_foreground_fallback defaultConfig (constAlpha 0) 2 2 hno⟩

/-! ## Claim theorems: compositor, smoother, tiers, encoder -/

/-- Claim C3: for every RGBA input crop, any configuration, and whether or
not a centroid is supplied, the canvas produced by the compositing stage
of toSquareWebP is exactly SIZE times SIZE pixels, and every pixel outside
the pasted resized image is fully transparent (0, 0, 0, 0). -/
theorem toSquareWebP_square_transparent
    (blend : RGBA → RGBA → RGBA) (resizeFn : Img → ℕ → ℕ → Img)
    (cfg : Config) (crop : Img) (c : Option (ℚ × ℚ)) (x y : ℕ)
    (hout : ¬ (placeLeft cfg crop.width crop.height c ≤ (x : ℤ) ∧
        (x : ℤ) < placeLeft cfg crop.width crop.height c +
          ((resizeFn crop (resizedW cfg crop.width crop.height).toNat
            (resizedH cfg crop.width crop.height).toNat).width : ℤ) ∧
        placeTop cfg crop.width crop.height c ≤ (y : ℤ) ∧
        (y : ℤ) < placeTop cfg crop.width crop.height c +
          ((resizeFn crop (resizedW cfg crop.width crop.height).toNat
            (resizedH cfg crop.width crop.height).toNat).height : ℤ))) :
    (toSquareCanvas blend resizeFn cfg crop c).width = cfg.size ∧
    (toSquareCanvas blend resizeFn cfg crop c).height = cfg.size ∧
    (toSquareCanvas blend resizeFn cfg crop c).px x y = ⟨0, 0, 0, 0⟩ := by
  refine ⟨rfl, rfl, ?_⟩
  simp only [toSquareCanvas, composite, transparentCanvas]
  rw [if_neg hout]

/-- Witness for C3 at a concrete 10 by 10 crop with no centroid on the
default configuration: the pasted rectangle starts at offset (100, 100),
so pixel (0, 0) lies outside it and comes out transparent. -/
theorem toSquareWebP_square_transparent_witness :
    (¬ (placeLeft defaultConfig 10 10 none ≤ ((0 : ℕ) : ℤ) ∧
        ((0 : ℕ) : ℤ) < placeLeft defaultConfig 10 10 none +
          ((modelResize (transparentCanvas 10)
            (resizedW defaultConfig 10 10).toNat
            (resizedH defaultConfig 10 10).toNat).width : ℤ) ∧
        placeTop defaultConfig 10 10 none ≤ ((0 : ℕ) : ℤ) ∧
        ((0 : ℕ) : ℤ) < placeTop defaultConfig 10 10 none +
          ((modelResize (transparentCanvas 10)
            (resizedW defaultConfig 10 10).toNat
            (resizedH defaultConfig 10 10).toNat).height : ℤ))) ∧
    ((toSquareCanvas modelBlend modelResize defaultConfig
        (transparentCanvas 10) none).width = defaultConfig.size ∧
     (toSquareCanvas modelBlend modelResize defaultConfig
        (transparentCanvas 10) none).height = defaultConfig.size ∧
     (toSquareCanvas modelBlend modelResize defaultConfig
        (transparentCanvas 10) none).px 0 0 = ⟨0, 0, 0, 0⟩) := by
  have hpl : placeLeft defaultConfig 10 10 none = 100 := by
    norm_num [placeLeft, resizedW, scaleOf, maxContentOf, defaultConfig]
  have hout : ¬ (placeLeft defaultConfig 10 10 none ≤ ((0 : ℕ) : ℤ) ∧
      ((0 : ℕ) : ℤ) < placeLeft defaultConfig 10 10 none +
        ((modelResize (transparentCanvas 10)
          (resizedW defaultConfig 10 10).toNat
          (resizedH defaultConfig 10 10).toNat).width : ℤ) ∧
      placeTop defaultConfig 10 10 none ≤ ((0 : ℕ) : ℤ) ∧
      ((0 : ℕ) : ℤ) < placeTop defaultConfig 10 10 none +
        ((modelResize (transparentCanvas 10)
          (resizedW defaultConfig 10 10).toNat
          (resizedH defaultConfig 10 10).toNat).height : ℤ)) := by
    intro hcon
    rw [hpl] at hcon
    exact absurd hcon.1 (by decide)
  exact ⟨hout, toSquareWebP_square_transparent modelBlend modelResize
    defaultConfig (transparentCanvas 10) none 0 0 hout⟩

/-- Claim C7: the centroid branch of the placement computes
left = round(SIZE / 2 - cx * scale) and top = round(SIZE / 2 - cy * scale
+ bias) with no clamping, while the geometric fallback branch clamps both
offsets with max 0; at the concrete crop of width 3, height 1 with
crop-local centroid cx = 15/8 the computed left offset is -125, which is
negative, i.e. outside the SIZE by SIZE canvas. -/
theorem centroid_branch_unclamped :
    (∀ (cfg : Config) (w h : ℕ) (cc : ℚ × ℚ),
      placeLeft cfg w h (some cc) =
        jsRound ((cfg.size : ℚ) / 2 - cc.1 * scaleOf cfg w h) ∧
      placeTop cfg w h (some cc) =
        jsRound ((cfg.size : ℚ) / 2 - cc.2 * scaleOf cfg w h +
          (biasOf cfg : ℚ))) ∧
    (∀ (cfg : Config) (w h : ℕ),
      0 ≤ placeLeft cfg w h none ∧ 0 ≤ placeTop cfg w h none) ∧
    placeLeft defaultConfig 3 1 (some (15/8, 1/2)) = -125 ∧
    placeLeft defaultConfig 3 1 (some (15/8, 1/2)) < 0 := by
  refine ⟨fun cfg w h cc => ⟨rfl, rfl⟩,
    fun cfg w h => ⟨le_max_left 0 _, le_max_left 0 _⟩, ?_, ?_⟩
  · norm_num [placeLeft, jsRound, scaleOf, maxContentOf, defaultConfig]
  · norm_num [placeLeft, jsRound, scaleOf, maxContentOf, defaultConfig]

/-- Normalizing to RGBA keeps the width. -/
theorem ensureAlpha_width (img : Img) : (ensureAlpha img).width = img.width := by
  unfold ensureAlpha
  split <;> rfl

/-- Normalizing to RGBA keeps the height. -/
theorem ensureAlpha_height (img : Img) :
    (ensureAlpha img).height = img.height := by
  unfold ensureAlpha
  split <;> rfl

/-- On every nonempty input the smoother fails at the 3-channel rebuild:
the shared mutated pipeline renders one channel, so the rgb readback has
length w * h * 1 and its validation against w * h * 3 rejects it. -/
theorem smoothAlpha_error (cfg : Config) (w h : ℕ) (hw : 1 ≤ w)
    (hh : 1 ≤ h) :
    smoothAlpha cfg w h =
      Except.error (SharpErr.rawLengthMismatch (w * h * 1) (w * h * 3)) := by
  have hk : 0 < w * h := Nat.mul_pos hw hh
  have hne : ¬ (w * h * 1 = w * h * 3) := by omega
  have hne2 : ¬ (w * h = w * h * 3) := by omega
  simp [smoothAlpha, rawToBuffer, pipeChannels, thresholdM, blurM,
    extractChannelM, removeAlphaM, mkSharp, hne, hne2]

/-- Claim C8 (code defect): the smoother is claimed to return a buffer of
identical dimensions with untouched RGB and blurred-then-binarized alpha,
but on every input with at least one pixel the real function throws
instead: rgb, alpha and img alias the one mutated sharp instance, so the
rgb readback is the single-channel extracted pipeline and its 3-channel
raw rebuild fails the length validation. -/
theorem smoothAlpha_throws (cfg : Config) (w h : ℕ) (hw : 1 ≤ w)
    (hh : 1 ≤ h) :
    smoothAlpha cfg w h =
      Except.error (SharpErr.rawLengthMismatch (w * h * 1) (w * h * 3)) :=
  smoothAlpha_error cfg w h hw hh

/-- Witness for C8 on a concrete 2 by 2 image with the default
configuration: the rgb readback has length 4 and the 3-channel rebuild
expected 12. -/
theorem smoothAlpha_throws_witness :
    ((1 : ℕ) ≤ 2 ∧ (1 : ℕ) ≤ 2) ∧
    smoothAlpha defaultConfig 2 2 =
      Except.error (SharpErr.rawLengthMismatch (2 * 2 * 1) (2 * 2 * 3)) :=
  ⟨⟨by decide, by decide⟩,
    smoothAlpha_throws defaultConfig 2 2 (by decide) (by decide)⟩

/-- Claim C9 (code defect): with HQ set and a throwing high tier, the
tier fallback itself works as claimed (the fast default tier result is
normalized and used), but removeBgToRGBA then runs the alpha smoother
with no guard, and the smoother throws on every nonempty image, so HQ
mode produces no output at all. -/
theorem hq_fallback_crashes (pngEncode : Img → RawBuf) (cfg : Config)
    (fastTier : Img) (hw : 1 ≤ fastTier.width)
    (hh : 1 ≤ fastTier.height) :
    removeBgToRGBA pngEncode cfg true (Except.error ()) fastTier =
      smoothAlpha cfg fastTier.width fastTier.height ∧
    removeBgToRGBA pngEncode cfg true (Except.error ()) fastTier =
      Except.error (SharpErr.rawLengthMismatch
        (fastTier.width * fastTier.height * 1)
        (fastTier.width * fastTier.height * 3)) := by
  have h1 : removeBgToRGBA pngEncode cfg true (Except.error ()) fastTier =
      smoothAlpha cfg fastTier.width fastTier.height := by
    simp [removeBgToRGBA, ensureAlpha_width, ensureAlpha_height]
  exact ⟨h1, h1.trans (smoothAlpha_error cfg _ _ hw hh)⟩

/-- Witness for C9 on a concrete 2 by 2 fast-tier image: the fallback
reaches the smoother, which fails its 3-channel length validation. -/
theorem hq_fallback_crashes_witness :
    ((1 : ℕ) ≤ (transparentCanvas 2).width ∧
     (1 : ℕ) ≤ (transparentCanvas 2).height) ∧
    (removeBgToRGBA (fun _ => ⟨0⟩) defaultConfig true (Except.error ())
        (transparentCanvas 2) =
      smoothAlpha defaultConfig (transparentCanvas 2).width
        (transparentCanvas 2).height ∧
     removeBgToRGBA (fun _ => ⟨0⟩) defaultConfig true (Except.error ())
        (transparentCanvas 2) =
      Except.error (SharpErr.rawLengthMismatch
        ((transparentCanvas 2).width * (transparentCanvas 2).height * 1)
        ((transparentCanvas 2).width * (transparentCanvas 2).height * 3))) := by
  have hw : (1 : ℕ) ≤ (transparentCanvas 2).width := by decide
  have hh : (1 : ℕ) ≤ (transparentCanvas 2).height := by decide
  exact ⟨⟨hw, hh⟩, hq_fallback_crashes (fun _ => ⟨0⟩) defaultConfig
    (transparentCanvas 2) hw hh⟩

/-- The scale factor is symmetric in the two dimensions. -/
theorem scaleOf_comm (cfg : Config) (w h : ℕ) :
    scaleOf cfg w h = scaleOf cfg h w := min_comm _ _

theorem resizedW_swap (cfg : Config) (w h : ℕ) :
    resizedW cfg h w = resizedH cfg w h := by
  rw [resizedW, resizedH, scaleOf_comm cfg h w]

theorem resizedH_swap (cfg : Config) (w h : ℕ) :
    resizedH cfg h w = resizedW cfg w h := by
  rw [resizedW, resizedH, scaleOf_comm cfg h w]

/-- On the axis where the scale binds (here h ≤ w, so the width axis),
the resized dimension equals maxContent exactly, and the other axis stays
below it. -/
theorem resized_binding (cfg : Config) (M : ℕ) (hM : 1 ≤ M)
    (hMC : maxContentOf cfg = (M : ℚ)) (w h : ℕ) (hw : 1 ≤ w) (hh : 1 ≤ h)
    (hwh : h ≤ w) :
    resizedW cfg w h = (M : ℤ) ∧ resizedH cfg w h ≤ (M : ℤ) := by
  have hw0 : (0 : ℚ) < (w : ℚ) := by exact_mod_cast hw
  have hh0 : (0 : ℚ) < (h : ℚ) := by exact_mod_cast hh
  have hwhQ : (h : ℚ) ≤ (w : ℚ) := by exact_mod_cast hwh
  have hM0 : (0 : ℚ) ≤ (M : ℚ) := Nat.cast_nonneg M
  have hsc : scaleOf cfg w h = (M : ℚ) / (w : ℚ) := by
    rw [scaleOf, hMC]
    exact min_eq_left (by gcongr)
  constructor
  · rw [resizedW, hsc]
    have hc : (w : ℚ) * ((M : ℚ) / (w : ℚ)) = (M : ℚ) := by
      field_simp
    rw [hc, Int.floor_natCast]
    exact max_eq_right (by exact_mod_cast hM)
  · rw [resizedH, hsc]
    have hle : (h : ℚ) * ((M : ℚ) / (w : ℚ)) ≤ (M : ℚ) := by
      have h1 : (h : ℚ) * ((M : ℚ) / (w : ℚ)) ≤
          (w : ℚ) * ((M : ℚ) / (w : ℚ)) :=
        mul_le_mul_of_nonneg_right hwhQ (div_nonneg hM0 (le_of_lt hw0))
      have hc : (w : ℚ) * ((M : ℚ) / (w : ℚ)) = (M : ℚ) := by
        field_simp
      rw [hc] at h1
      exact h1
    have hfl : ⌊(h : ℚ) * ((M : ℚ) / (w : ℚ))⌋ ≤ (M : ℤ) := by
      have h2 := Int.floor_le_floor hle
      rwa [Int.floor_natCast] at h2
    exact max_le (by exact_mod_cast hM) hfl

/-- Claim C4: for every crop (w, h ≥ 1), when maxContent is a positive
whole number M (as with the defaults, where M = 1800), the resized
dimensions both stay within M and at least one of them equals M (the axis
on which the scale factor binds). -/
theorem resized_fits_maxContent (cfg : Config) (M : ℕ) (hM : 1 ≤ M)
    (hMC : maxContentOf cfg = (M : ℚ)) (w h : ℕ) (hw : 1 ≤ w)
    (hh : 1 ≤ h) :
    resizedW cfg w h ≤ (M : ℤ) ∧ resizedH cfg w h ≤ (M : ℤ) ∧
    (resizedW cfg w h = (M : ℤ) ∨ resizedH cfg w h = (M : ℤ)) := by
  rcases le_total h w with hwh | hwh
  · obtain ⟨h1, h2⟩ := resized_binding cfg M hM hMC w h hw hh hwh
    exact ⟨le_of_eq h1, h2, Or.inl h1⟩
  · obtain ⟨h1, h2⟩ := resized_binding cfg M hM hMC h w hh hw hwh
    rw [resizedW_swap] at h1
    rw [resizedH_swap] at h2
    exact ⟨h2, le_of_eq h1, Or.inr h1⟩

/-- Witness for C4 with the default configuration (maxContent 1800) and a
concrete 1000 by 600 crop: the width axis binds at exactly 1800. -/
theorem resized_fits_maxContent_witness :
    ((1 : ℕ) ≤ 1800 ∧ maxContentOf defaultConfig = ((1800 : ℕ) : ℚ) ∧
      (1 : ℕ) ≤ 1000 ∧ (1 : ℕ) ≤ 600) ∧
    (resizedW defaultConfig 1000 600 ≤ ((1800 : ℕ) : ℤ) ∧
     resizedH defaultConfig 1000 600 ≤ ((1800 : ℕ) : ℤ) ∧
     (resizedW defaultConfig 1000 600 = ((1800 : ℕ) : ℤ) ∨
      resizedH defaultConfig 1000 600 = ((1800 : ℕ) : ℤ))) := by
  have h1 : (1 : ℕ) ≤ 1800 := by decide
  have h2 : maxContentOf defaultConfig = ((1800 : ℕ) : ℚ) := by
    norm_num [maxContentOf, defaultConfig]
  have h3 : (1 : ℕ) ≤ 1000 := by decide
  have h4 : (1 : ℕ) ≤ 600 := by decide
  exact ⟨⟨h1, h2, h3, h4⟩,
    resized_fits_maxContent defaultConfig 1800 h1 h2 1000 600 h3 h4⟩

/-- Counterexample to claim C5 as stated: on the fully opaque 1000 by 600
image with the default configuration the pipeline does NOT place the
resized image at left 100 and top 460, because the analyzer produces a
centroid for an opaque image, so the unclamped centroid branch runs
instead of geometric centering and yields left 101, top 461. -/
theorem pipeline_1000x600_not_at_100_460 :
    ¬ ((pipelinePlacement defaultConfig (constAlpha 255) 1000 600).left =
        100 ∧
       (pipelinePlacement defaultConfig (constAlpha 255) 1000 600).top =
        460) := by
  rw [pipeline_opaque_1000x600]
  decide

/-- Claim C5 (amended): on the fully opaque 1000 by 600 image with the
default configuration the pipeline computes bounding box (0, 0, 1000,
600), maxContent 1800, scale 1.8, resized dimensions 1800 by 1080, and a
centroid (499.5, 299.5), so the centroid-biased branch (not geometric
centering) places the image at left 101 and top 461. -/
theorem pipeline_1000x600_values :
    pipelinePlacement defaultConfig (constAlpha 255) 1000 600 =
      { box := some (0, 0, 1000, 600), cw := 1000, ch := 600,
        centroid := some (999/2, 599/2), maxC := 1800, scale := 9/5,
        nw := 1800, nh := 1080, left := 101, top := 461 } :=
  pipeline_opaque_1000x600

/-- Claim C10: the encoder options are lossy webp with lossless and
near-lossless disabled and chroma smart subsampling enabled, image quality
defaulting to 82, alpha quality to 80 and effort to 6, with quality, alpha
quality and effort independently configurable from the environment. -/
theorem webp_encoder_policy :
    webpOptions none none none =
      { quality := 82, alphaQuality := 80, lossless := false,
        smartSubsample := true, effort := 6, nearLossless := false } ∧
    ∀ q aq e : ℕ,
      (webpOptions (some q) (some aq) (some e)).quality = q ∧
      (webpOptions (some q) (some aq) (some e)).alphaQuality = aq ∧
      (webpOptions (some q) (some aq) (some e)).effort = e ∧
      (webpOptions (some q) (some aq) (some e)).lossless = false ∧
      (webpOptions (some q) (some aq) (some e)).nearLossless = false ∧
      (webpOptions (some q) (some aq) (some e)).smartSubsample = true :=
  ⟨rfl, fun _ _ _ => ⟨rfl, rfl, rfl, rfl, rfl, rfl⟩⟩

end ImageResize
